import Mathlib

/-!
Verification of the Ai-Kall language-tutor application.

The program is a browser chat application (React + a Gemini service layer).
The properties under scrutiny concern:
* the reply parser that splits a raw model reply on the literal marker
  `[RESPONSE]` (App.tsx, `recorder.onstop`),
* the session configurator that assembles the system-instruction string
  (services/geminiService.ts, `initChat`),
* the localStorage-backed identity store (`handleAuth`),
* the failure paths of `handleSendText` and the recorded-clip size check
  of the `recorder.onstop` handler.

JavaScript strings are modelled as `List Char`; JS string methods
(`includes`, `split`, `replace` with a string pattern, `trim`) are given
direct executable models below.  `trim` is modelled on the common ASCII
whitespace characters recognised by `Char.isWhitespace`; all string
constants of the program are ASCII, so the restriction is immaterial.
The repository contains near-duplicate variants of the app component; the
embedding follows the first (primary) variant of `src/App.tsx` together
with `src/services/geminiService.ts`, and additionally the variant of
`src/unnamed/part_003` where a claim is specifically about it (the
recorded-clip size threshold, `cleanResponse`).
-/

set_option maxHeartbeats 1000000
set_option maxRecDepth 16384

namespace AiKall

/-- JS `s.includes(sep)`: substring containment test. -/
def includesSub (sep : List Char) : List Char → Bool
  | [] => sep.isEmpty
  | c :: rest => sep.isPrefixOf (c :: rest) || includesSub sep rest

/-- First occurrence of `sep` in `s`: `some (before, after)` where `before` is
the text preceding the first occurrence and `after` the text following it,
`none` when `sep` does not occur.  This is the semantic core of JS
`indexOf`-based splitting. -/
def breakOnFirst (sep : List Char) : List Char → Option (List Char × List Char)
  | [] => if sep.isEmpty then some ([], []) else none
  | c :: rest =>
    if sep.isPrefixOf (c :: rest) then some ([], (c :: rest).drop sep.length)
    else
      match breakOnFirst sep rest with
      | some (a, b) => some (c :: a, b)
      | none => none

/-- Fuelled worker for `splitOnL`; the fuel is an upper bound on the length of
the remaining input, so the `0` fallback row is never reached in `splitOnL`. -/
def splitOnLAux (sep : List Char) : Nat → List Char → List (List Char)
  | _, [] => [[]]
  | 0, s => [s]
  | fuel + 1, c :: rest =>
    if sep.isPrefixOf (c :: rest) && !sep.isEmpty then
      [] :: splitOnLAux sep fuel (rest.drop (sep.length - 1))
    else
      match splitOnLAux sep fuel rest with
      | [] => [[]]
      | p :: ps => (c :: p) :: ps

/-- JS `s.split(sep)` for a non-empty string separator: the list of maximal
pieces between the non-overlapping left-to-right occurrences of `sep`. -/
def splitOnL (sep s : List Char) : List (List Char) :=
  splitOnLAux sep s.length s

/-- JS `s.replace(pat, repl)` with a plain string pattern: only the first
occurrence is replaced. -/
def replaceFirstL (pat repl s : List Char) : List Char :=
  match breakOnFirst pat s with
  | some (a, b) => a ++ repl ++ b
  | none => s

/-- JS `s.trim()`: strip whitespace from both ends. -/
def trimL (s : List Char) : List Char :=
  ((s.dropWhile Char.isWhitespace).reverse.dropWhile Char.isWhitespace).reverse

/-- Fuelled worker for `stripTagsL`. -/
def stripTagsAux (t1 t2 : List Char) : Nat → List Char → List Char
  | _, [] => []
  | 0, s => s
  | fuel + 1, c :: rest =>
    if t1.isPrefixOf (c :: rest) && !t1.isEmpty then
      stripTagsAux t1 t2 fuel (rest.drop (t1.length - 1))
    else if t2.isPrefixOf (c :: rest) && !t2.isEmpty then
      stripTagsAux t1 t2 fuel (rest.drop (t2.length - 1))
    else c :: stripTagsAux t1 t2 fuel rest

/-- JS `s.replace(/\[TRANSCRIPTION\]|\[RESPONSE\]/g, "")`: delete every
left-to-right occurrence of either tag. -/
def stripTagsL (t1 t2 s : List Char) : List Char :=
  stripTagsAux t1 t2 s.length s

/-- The transcription marker literal of the program. -/
def tagT : List Char := "[TRANSCRIPTION]".data

/-- The response marker literal of the program. -/
def tagR : List Char := "[RESPONSE]".data

/-! ## Data model (src/types.ts) -/

/-- Role of a chat message (types.ts `Role`). -/
inductive Role where
  | USER
  | TUTOR
deriving DecidableEq

/-- Proficiency level (types.ts `EnglishLevel`). -/
inductive EnglishLevel where
  | A1
  | A2
  | B1
  | B2
  | C1
  | C2
deriving DecidableEq

/-- Target language (types.ts `LanguageGoal`). -/
inductive LanguageGoal where
  | English
  | Russian
deriving DecidableEq

/-- Practice mode (types.ts `PracticeMode`). -/
inductive PracticeMode where
  | MENU
  | CONVERSATION
  | INTERVIEW
  | CUSTOM
deriving DecidableEq

/-- The active user profile (types.ts `User`, the `tutor_user` record). -/
structure User where
  username : String
  level : EnglishLevel
  targetLanguage : LanguageGoal
deriving DecidableEq

/-- A record of the `tutor_users_db` directory: `{ password, level, targetLanguage }`. -/
structure StoredUser where
  password : String
  level : EnglishLevel
  targetLanguage : LanguageGoal
deriving DecidableEq

/-! ## Reply parser (src/App.tsx, primary variant, recorder.onstop lines 208-225)

The JS code, given the raw model reply `result`, first tests
`result.includes("[TRANSCRIPTION]") && result.includes("[RESPONSE]")`; if so
it sets `parts = result.split("[RESPONSE]")`, the transcription to
`parts[0].replace("[TRANSCRIPTION]", "").trim()` and the response to
`parts[1].trim()`.  Otherwise, if `result.includes("[RESPONSE]")`, the
transcription is `parts[0].trim()` and the response `parts[1].trim()`.
Otherwise the whole of `result` is the response and the transcription is the
literal `"Audio processed"`.  The user-role message is then
`transcription || fallback` with a fixed fallback sentence.
Indexing `parts[i]` may yield `undefined` in JS, and `.trim()` on `undefined`
throws; the model therefore returns `Option`, with `none` standing for a
thrown `TypeError`. -/

/-- The `(transcription, response)` pair produced by the parser. -/
structure ParsedReply where
  transcription : List Char
  response : List Char
deriving DecidableEq

/-- The fixed transcription placeholder of the no-marker branch. -/
def fallbackTranscription : List Char := "Audio processed".data

/-- The fallback shown when the parsed transcription is the empty string
(the `transcription || "..."` argument of `addMessage`). -/
def noTranscribeFallback : List Char :=
  "I heard something but couldn\u0027t transcribe it.".data

/-- The reply parser of `recorder.onstop` (primary App.tsx variant). -/
def parseReplyChecked (result : List Char) : Option ParsedReply :=
  if includesSub tagT result && includesSub tagR result then
    let parts := splitOnL tagR result
    match parts.get? 0, parts.get? 1 with
    | some p0, some p1 =>
      some ⟨trimL (replaceFirstL tagT [] p0), trimL p1⟩
    | _, _ => none
  else if includesSub tagR result then
    let parts := splitOnL tagR result
    match parts.get? 0, parts.get? 1 with
    | some p0, some p1 => some ⟨trimL p0, trimL p1⟩
    | _, _ => none
  else
    some ⟨fallbackTranscription, result⟩

/-- The parsed reply, with a dummy value for the (unreachable) error case. -/
def parsedReplyOf (s : List Char) : ParsedReply :=
  (parseReplyChecked s).getD ⟨[], []⟩

/-- The user-role text displayed for a parsed reply: the transcription, or the
fixed fallback when it is empty (the `||` in the `addMessage` call). -/
def displayedTranscription (s : List Char) : List Char :=
  if (parsedReplyOf s).transcription = [] then noTranscribeFallback
  else (parsedReplyOf s).transcription

/-- The tutor-role text displayed for a parsed reply. -/
def responseOf (s : List Char) : List Char :=
  (parsedReplyOf s).response

/-- The first piece of `s` up to the first occurrence of `sep` (all of `s`
when `sep` does not occur). -/
def headPiece (sep s : List Char) : List Char :=
  match breakOnFirst sep s with
  | some (m, _) => m
  | none => s

/-- Modelled from the claim wording of C1 (spec.md section 4.3, rule 1): the
transcription is everything before the first `[RESPONSE]`, with a leading
`[TRANSCRIPTION]` tag, if present, stripped, then trimmed; the response is
everything after the first `[RESPONSE]`, trimmed. -/
def specParseClaimC1 (s : List Char) : ParsedReply :=
  match breakOnFirst tagR s with
  | some (before, after) =>
    let t := if tagT.isPrefixOf before then before.drop tagT.length else before
    ⟨trimL t, trimL after⟩
  | none => ⟨[], []⟩

/-- The amended statement of C1: the transcription is everything before the
first `[RESPONSE]` with the first occurrence of `[TRANSCRIPTION]` anywhere in
that segment removed, trimmed; the response is the text strictly between the
first and the second occurrence of `[RESPONSE]` (everything after the first
occurrence when it is unique), trimmed. -/
def specParseAmendedC1 (s : List Char) : ParsedReply :=
  match breakOnFirst tagR s with
  | some (before, after) =>
    let t :=
      match breakOnFirst tagT before with
      | some (x, y) => x ++ y
      | none => before
    ⟨trimL t, trimL (headPiece tagR after)⟩
  | none => ⟨[], []⟩

/-! ## Session configurator (src/services/geminiService.ts, `initChat`)

The instruction string is a template literal interpolating the tutoring
language, the level name, the canned level description and the mode clause.
The template is reproduced verbatim, including its indentation. -/

/-- The canned level description table of `initChat`. -/
def levelDescription : EnglishLevel → String
  | .A1 => "Beginner. Use very simple words and short sentences."
  | .A2 => "Elementary. Use simple language but start introducing basic past and future tenses."
  | .B1 => "Intermediate. Use standard language. Focus on common expressions."
  | .B2 => "Upper Intermediate. Use a rich vocabulary. Engage in deeper discussions."
  | .C1 => "Advanced. Use sophisticated vocabulary and complex grammar."
  | .C2 => "Proficiency. Speak naturally as a native professional would."

/-- The textual name of a level, as interpolated by the template literal. -/
def levelName : EnglishLevel → String
  | .A1 => "A1"
  | .A2 => "A2"
  | .B1 => "B1"
  | .B2 => "B2"
  | .C1 => "C1"
  | .C2 => "C2"

/-- The `tutorLang` ternary: `targetLanguage === "English" ? "English" : "Russian"`. -/
def tutorLangOf : LanguageGoal → String
  | .English => "English"
  | _ => "Russian"

/-- The `switch (this.currentMode)` clause selecting the context sentence. -/
def modeInstruction : PracticeMode → String → String
  | .CONVERSATION, _ =>
    "Context: A casual everyday conversation. Be friendly and informal."
  | .INTERVIEW, _ =>
    "Context: A formal job interview. You are a professional recruiter/hiring manager. Ask challenging interview questions."
  | .CUSTOM, scenario =>
    "Context: " ++ scenario ++ ". Adopt this persona/scenario strictly."
  | _, _ => "Context: General practice."

/-- The system-instruction template literal of `initChat`. -/
def systemInstructions (lv : EnglishLevel) (lang : LanguageGoal)
    (mode : PracticeMode) (scenario : String) : String :=
  "You are a friendly and professional " ++ tutorLangOf lang ++ " Tutor. \n    Current Student Level: " ++
    levelName lv ++ ". " ++ levelDescription lv ++ "\n    " ++
    modeInstruction mode scenario ++
    "\n    \n    Your goals:\n    1. Listen to the user\u0027s spoken or written " ++
    tutorLangOf lang ++
    ".\n    2. Politely correct any grammatical errors or awkward phrasing relative to their level.\n    3. Maintain an encouraging conversation based on the context provided.\n    4. Keep your responses short (2-3 sentences max) so they are suitable for voice playback.\n    5. If the user makes a mistake, explain it briefly in " ++
    tutorLangOf lang ++
    ".\n    \n    Output format: Provide your response in plain text. Do not use complex markdown."

/-! ## Local identity store (src/App.tsx, `handleAuth`, lines 66-94)

`localStorage` holds the JSON object `tutor_users_db` (username to stored
record) and the JSON record `tutor_user` (the current user, mirrored in the
`currentUser` React state).  A JSON object is modelled as an association
list; `users[username] = v` updates the binding in place or appends it. -/

/-- JS property read `users[username]` on the parsed JSON object. -/
def dbLookup (db : List (String × StoredUser)) (k : String) : Option StoredUser :=
  match db with
  | [] => none
  | (k', v) :: rest => if k' = k then some v else dbLookup rest k

/-- JS property write `users[username] = v` on the parsed JSON object. -/
def dbInsert (db : List (String × StoredUser)) (k : String) (v : StoredUser) :
    List (String × StoredUser) :=
  match db with
  | [] => [(k, v)]
  | (k', v') :: rest =>
    if k' = k then (k, v) :: rest else (k', v') :: dbInsert rest k v

/-- The application state touched by `handleAuth`: the persisted users
directory, the current-user record, and the inline auth error text. -/
structure AuthState where
  usersDb : List (String × StoredUser)
  currentUser : Option User
  authError : String
deriving DecidableEq

/-- `handleAuth` of the primary App.tsx variant.  It clears the error text,
rejects empty fields, and then either registers (failing when the username is
already bound) or logs in (failing when the user is missing or the password
differs).  The `stored.targetLanguage || "English"` guard of the login path
is the identity here because the stored record is well-typed. -/
def handleAuth (isRegistering : Bool) (username pw : String)
    (lv : EnglishLevel) (tl : LanguageGoal) (st : AuthState) : AuthState :=
  let st := { st with authError := "" }
  if username = "" || pw = "" then
    { st with authError := "Please fill in all fields" }
  else if isRegistering then
    match dbLookup st.usersDb username with
    | some _ => { st with authError := "User already exists" }
    | none =>
      { st with
        usersDb := dbInsert st.usersDb username ⟨pw, lv, tl⟩,
        currentUser := some ⟨username, lv, tl⟩ }
  else
    match dbLookup st.usersDb username with
    | none => { st with authError := "Invalid username or password" }
    | some stored =>
      if stored.password ≠ pw then
        { st with authError := "Invalid username or password" }
      else
        { st with currentUser := some ⟨username, stored.level, stored.targetLanguage⟩ }

/-! ## Conversation exchange failure paths

`handleSendText` (primary App.tsx variant, lines 161-177) and the
`recorder.onstop` handler of src/unnamed/part_003 (lines 158-190, the variant
with the clip-size threshold).  The remote call is a suspension point; its
completion is modelled as an `Except` value passed to the handler.  Message
ids (`Math.random`) and timestamps are opaque and carry no information used
by any claim, so a message is modelled as its role and text.  Speech playback
(`playResponse`) has its own try/catch, never throws, and touches only the
`isPlaying` flag, so it is not part of this state. -/

/-- The chat-screen state touched by the send and record handlers. -/
structure ChatState where
  messages : List (Role × String)
  inputText : String
  isProcessing : Bool
  processingStatus : String
deriving DecidableEq

/-- JS `trim` on a `String` value. -/
def trimS (s : String) : String := ⟨trimL s.data⟩

/-- The catch-branch text of `handleSendText`. -/
def connectErrText : String := "Sorry, I\u0027m having trouble connecting to my brain."

/-- `handleSendText`: guard, append the user message, mark processing, then
either append the reply (resolved call) or the fixed error notice (rejected
call); `finally` clears `isProcessing`. -/
def handleSendText (st : ChatState) (outcome : Except String String) : ChatState :=
  if trimS st.inputText = "" || st.isProcessing then st
  else
    let userText := st.inputText
    let st1 := { st with
      inputText := "",
      messages := st.messages ++ [(Role.USER, userText)],
      isProcessing := true,
      processingStatus := "Thinking..." }
    match outcome with
    | .ok resp =>
      { st1 with messages := st1.messages ++ [(Role.TUTOR, resp)], isProcessing := false }
    | .error _ =>
      { st1 with messages := st1.messages ++ [(Role.TUTOR, connectErrText)], isProcessing := false }

/-- The tutor messages of a message list. -/
def tutorMessages (msgs : List (Role × String)) : List (Role × String) :=
  msgs.filter (fun m => m.1 = Role.TUTOR)

/-- `handleError` of part_003: the error notice appended on a rejected call. -/
def handleErrorText (e : String) : String :=
  "I encountered an error: " ++ e ++ ". Please ensure you have a valid internet connection."

/-- `cleanResponse` of part_003 (lines 66-72): take the piece after the
marker when present, otherwise strip every tag occurrence; trim either way. -/
def cleanResponse (text : String) : String :=
  if includesSub tagR text.data then
    ⟨trimL ((splitOnL tagR text.data).getD 1 [])⟩
  else
    ⟨trimL (stripTagsL tagT tagR text.data)⟩

/-- The `recorder.onstop` handler of part_003 (lines 158-190).  `blobSize` is
the byte size of the recorded clip; clips under 50 bytes are discarded before
any remote call.  The returned flag records whether `processAudio` was
invoked (the clip was submitted to the exchange). -/
def voiceStop (blobSize : Nat) (outcome : Except String String) (st : ChatState) :
    ChatState × Bool :=
  if blobSize < 50 then
    ({ st with isProcessing := false }, false)
  else
    let st1 := { st with isProcessing := true, processingStatus := "AI is listening..." }
    match outcome with
    | .ok result =>
      let pair :=
        if includesSub tagR result.data then
          let parts := splitOnL tagR result.data
          ((⟨trimL (replaceFirstL tagT [] (parts.getD 0 []))⟩ : String),
            (⟨trimL (parts.getD 1 [])⟩ : String))
        else
          (("Audio message" : String), cleanResponse result)
      ({ st1 with
          messages := st1.messages ++ [(Role.USER, pair.1), (Role.TUTOR, pair.2)],
          isProcessing := false }, true)
    | .error e =>
      ({ st1 with
          messages := st1.messages ++ [(Role.TUTOR, handleErrorText e)],
          isProcessing := false }, true)

/-! ## Lemmas about the string primitives -/

theorem nil_isPrefixOf (l : List Char) : ([] : List Char).isPrefixOf l = true := by
  cases l <;> rfl

theorem isPrefixOf_self (l : List Char) : l.isPrefixOf l = true := by
  induction l with
  | nil => rfl
  | cons a t ih => simp [List.isPrefixOf, ih]

theorem isPrefixOf_append_mono (p : List Char) :
    ∀ t u, p.isPrefixOf t = true → p.isPrefixOf (t ++ u) = true := by
  induction p with
  | nil => intro t u _; exact nil_isPrefixOf (t ++ u)
  | cons a as ih =>
    intro t u h
    cases t with
    | nil => simp [List.isPrefixOf] at h
    | cons b bs =>
      simp only [List.isPrefixOf, Bool.and_eq_true, List.cons_append] at h ⊢
      exact ⟨h.1, ih bs u h.2⟩

theorem append_drop_of_isPrefixOf (p : List Char) :
    ∀ s, p.isPrefixOf s = true → p ++ s.drop p.length = s := by
  induction p with
  | nil => intro s _; simp
  | cons a as ih =>
    intro s h
    cases s with
    | nil => simp [List.isPrefixOf] at h
    | cons b bs =>
      simp only [List.isPrefixOf, Bool.and_eq_true, beq_iff_eq] at h
      obtain ⟨rfl, h2⟩ := h
      simpa [List.length_cons, List.drop] using ih bs h2

theorem breakOnFirst_append (sep : List Char) :
    ∀ s a b, breakOnFirst sep s = some (a, b) → s = a ++ sep ++ b := by
  intro s
  induction s with
  | nil =>
    intro a b h
    simp only [breakOnFirst] at h
    split at h
    · simp only [Option.some.injEq, Prod.mk.injEq] at h
      obtain ⟨rfl, rfl⟩ := h
      rename_i hse
      cases sep with
      | nil => simp
      | cons x xs => simp [List.isEmpty] at hse
    · exact absurd h (by simp)
  | cons c rest ih =>
    intro a b h
    simp only [breakOnFirst] at h
    split at h
    · rename_i hp
      simp only [Option.some.injEq, Prod.mk.injEq] at h
      obtain ⟨rfl, rfl⟩ := h
      simpa using (append_drop_of_isPrefixOf sep (c :: rest) hp).symm
    · rename_i hp
      cases hb : breakOnFirst sep rest with
      | none => rw [hb] at h; exact absurd h (by simp)
      | some p =>
        obtain ⟨a', b'⟩ := p
        rw [hb] at h
        simp only [Option.some.injEq, Prod.mk.injEq] at h
        obtain ⟨rfl, rfl⟩ := h
        have := ih a' b' hb
        simp [this]

theorem breakOnFirst_isSome (sep : List Char) :
    ∀ s, (breakOnFirst sep s).isSome = includesSub sep s := by
  intro s
  induction s with
  | nil =>
    simp only [breakOnFirst, includesSub]
    split <;> simp_all
  | cons c rest ih =>
    simp only [breakOnFirst, includesSub]
    by_cases hp : sep.isPrefixOf (c :: rest) = true
    · simp [hp]
    · have hpf : sep.isPrefixOf (c :: rest) = false := Bool.eq_false_iff.mpr hp
      rw [if_neg hp, hpf, Bool.false_or]
      cases hb : breakOnFirst sep rest <;> rw [hb] at ih <;> simp_all

theorem splitOnLAux_congr (sep : List Char) :
    ∀ f1 f2 s, s.length ≤ f1 → s.length ≤ f2 →
      splitOnLAux sep f1 s = splitOnLAux sep f2 s := by
  intro f1
  induction f1 with
  | zero =>
    intro f2 s h1 _
    have hs : s = [] := List.eq_nil_of_length_eq_zero (Nat.le_zero.mp h1)
    subst hs
    cases f2 <;> rfl
  | succ g ih =>
    intro f2 s h1 h2
    cases s with
    | nil => cases f2 <;> rfl
    | cons c rest =>
      cases f2 with
      | zero => exact absurd h2 (by simp)
      | succ m =>
        have hr1 : rest.length ≤ g := by simpa using h1
        have hr2 : rest.length ≤ m := by simpa using h2
        simp only [splitOnLAux]
        by_cases hp : (sep.isPrefixOf (c :: rest) && !sep.isEmpty) = true
        · rw [if_pos hp, if_pos hp]
          have hd : (rest.drop (sep.length - 1)).length ≤ rest.length := by
            simp [List.length_drop]
          exact congrArg (fun l => [] :: l)
            (ih m _ (le_trans hd hr1) (le_trans hd hr2))
        · rw [if_neg hp, if_neg hp, ih m rest hr1 hr2]

theorem splitOnL_break (sep : List Char) (hsep : sep ≠ []) :
    ∀ s, splitOnL sep s =
      match breakOnFirst sep s with
      | none => [s]
      | some (a, b) => a :: splitOnL sep b := by
  have hse : sep.isEmpty = false := by
    cases sep with
    | nil => exact absurd rfl hsep
    | cons x xs => rfl
  intro s
  induction s with
  | nil =>
    have hb : breakOnFirst sep [] = none := by simp [breakOnFirst, hse]
    rw [hb]
    rfl
  | cons c rest ih =>
    have hL : splitOnL sep (c :: rest) = splitOnLAux sep (rest.length + 1) (c :: rest) := rfl
    rw [hL]
    simp only [splitOnLAux]
    by_cases hp : sep.isPrefixOf (c :: rest) = true
    · rw [if_pos (by simp [hp, hse])]
      have hbf : breakOnFirst sep (c :: rest) = some ([], (c :: rest).drop sep.length) := by
        simp [breakOnFirst, hp]
      rw [hbf]
      have hdrop : (c :: rest).drop sep.length = rest.drop (sep.length - 1) := by
        cases hsl : sep.length with
        | zero => exact absurd (List.eq_nil_of_length_eq_zero hsl) hsep
        | succ n => simp
      have hd : (rest.drop (sep.length - 1)).length ≤ rest.length := by
        simp [List.length_drop]
      have hcg : splitOnL sep ((c :: rest).drop sep.length) =
          splitOnLAux sep rest.length (rest.drop (sep.length - 1)) := by
        rw [hdrop]
        exact splitOnLAux_congr sep _ rest.length _ le_rfl hd
      show ([] :: splitOnLAux sep rest.length (rest.drop (sep.length - 1)) :
          List (List Char)) = [] :: splitOnL sep ((c :: rest).drop sep.length)
      rw [hcg]
    · rw [if_neg (by simp [hp])]
      have hbf : breakOnFirst sep (c :: rest) =
          match breakOnFirst sep rest with
          | some (a, b) => some (c :: a, b)
          | none => none := by
        simp only [breakOnFirst]
        rw [if_neg hp]
      have hLr : splitOnLAux sep rest.length rest = splitOnL sep rest := rfl
      rw [hLr, ih, hbf]
      cases hb : breakOnFirst sep rest with
      | none => rfl
      | some p =>
        obtain ⟨a, b⟩ := p
        rfl

theorem splitOnL_get_zero (sep : List Char) (hsep : sep ≠ []) (s : List Char) :
    (splitOnL sep s).get? 0 = some (headPiece sep s) := by
  rw [splitOnL_break sep hsep s]
  cases h : breakOnFirst sep s with
  | none => simp [headPiece, h]
  | some p =>
    obtain ⟨a, b⟩ := p
    simp [headPiece, h]

theorem splitOnL_get_one (sep : List Char) (hsep : sep ≠ []) {s a b : List Char}
    (h : breakOnFirst sep s = some (a, b)) :
    (splitOnL sep s).get? 1 = some (headPiece sep b) := by
  rw [splitOnL_break sep hsep s, h]
  simpa using splitOnL_get_zero sep hsep b

theorem includes_self (t : List Char) : includesSub t t = true := by
  cases t with
  | nil => rfl
  | cons c r => simp [includesSub, isPrefixOf_self]

theorem includes_append_left (t x y : List Char) (h : includesSub t y = true) :
    includesSub t (x ++ y) = true := by
  induction x with
  | nil => simpa using h
  | cons c x' ih => simp [includesSub, ih]

theorem includes_append_right (t x y : List Char) (h : includesSub t x = true) :
    includesSub t (x ++ y) = true := by
  induction x with
  | nil =>
    have ht : t = [] := by
      cases t with
      | nil => rfl
      | cons c r => simp [includesSub, List.isEmpty] at h
    subst ht
    cases y with
    | nil => rfl
    | cons c r => simp [includesSub, nil_isPrefixOf]
  | cons c x' ih =>
    simp only [includesSub, Bool.or_eq_true] at h
    rcases h with h | h
    · simp only [List.cons_append, includesSub, Bool.or_eq_true]
      exact Or.inl (isPrefixOf_append_mono t (c :: x') y h)
    · simp only [List.cons_append, includesSub, Bool.or_eq_true]
      exact Or.inr (ih h)

theorem includes_of_break {t u x y : List Char} (h : breakOnFirst t u = some (x, y)) :
    includesSub t u = true := by
  rw [← breakOnFirst_isSome, h]
  rfl

/-! ## Characterisation of the reply parser -/

theorem parseReplyChecked_eq {s a b : List Char} (h : breakOnFirst tagR s = some (a, b)) :
    parseReplyChecked s =
      some ⟨trimL (replaceFirstL tagT [] a), trimL (headPiece tagR b)⟩ := by
  have htagR : (tagR : List Char) ≠ [] := by decide
  have hR : includesSub tagR s = true := includes_of_break h
  have h0 := splitOnL_get_zero tagR htagR s
  have h1 := splitOnL_get_one tagR htagR h
  have hhp : headPiece tagR s = a := by simp [headPiece, h]
  rw [hhp] at h0
  by_cases hT : includesSub tagT s = true
  · simp only [parseReplyChecked, hT, hR, Bool.and_self, if_true]
    rw [h0, h1]
  · have hTf : includesSub tagT s = false := Bool.eq_false_iff.mpr hT
    have hnone : breakOnFirst tagT a = none := by
      cases hb : breakOnFirst tagT a with
      | none => rfl
      | some p =>
        obtain ⟨x, y⟩ := p
        have hxy := breakOnFirst_append tagT a x y hb
        have hs := breakOnFirst_append tagR s a b h
        have hin : includesSub tagT s = true := by
          rw [hs, hxy]
          exact includes_append_right _ _ _ (includes_append_right _ _ _
            (includes_append_right _ _ _ (includes_append_left _ _ _ (includes_self _))))
        rw [hTf] at hin
        exact absurd hin (by simp)
    have hid : replaceFirstL tagT [] a = a := by simp [replaceFirstL, hnone]
    rw [hid]
    simp only [parseReplyChecked, hTf, Bool.false_and, Bool.false_eq_true, if_false, hR, if_true]
    rw [h0, h1]

/-- C1 (amended): for every raw reply containing the marker, the parsed
transcription is the text before the first occurrence of the response marker
with the first occurrence of the transcription tag anywhere in that segment
removed, trimmed; the parsed response is the text strictly between the first
and second occurrences of the response marker (everything after the first
occurrence when it is unique), trimmed. -/
theorem c1_split_on_first_amended (s : List Char) (h : includesSub tagR s = true) :
    parseReplyChecked s = some (specParseAmendedC1 s) := by
  have hsome : (breakOnFirst tagR s).isSome = true := by
    rw [breakOnFirst_isSome]; exact h
  obtain ⟨⟨a, b⟩, hb⟩ := Option.isSome_iff_exists.mp hsome
  rw [parseReplyChecked_eq hb]
  simp only [specParseAmendedC1, hb]
  cases ht : breakOnFirst tagT a with
  | none => simp [replaceFirstL, ht]
  | some p =>
    obtain ⟨x, y⟩ := p
    simp [replaceFirstL, ht]

/-! ## Whitespace lemmas for the empty-transcription case -/

theorem whitespace_of_trimL_nil {s : List Char} (h : trimL s = []) :
    ∀ c ∈ s, c.isWhitespace = true := by
  intro c hc
  unfold trimL at h
  rw [List.reverse_eq_nil_iff, List.dropWhile_eq_nil_iff] at h
  have hx : ∀ x ∈ s.dropWhile Char.isWhitespace, x.isWhitespace = true := by
    intro x hmem
    exact h x (List.mem_reverse.mpr hmem)
  have hsplit := List.takeWhile_append_dropWhile (p := Char.isWhitespace) (l := s)
  rw [← hsplit] at hc
  rcases List.mem_append.mp hc with h1 | h2
  · exact List.mem_takeWhile_imp h1
  · exact hx c h2

theorem breakOnFirst_tagT_none_of_ws {u : List Char}
    (h : ∀ c ∈ u, c.isWhitespace = true) :
    breakOnFirst tagT u = none := by
  cases hb : breakOnFirst tagT u with
  | none => rfl
  | some p =>
    obtain ⟨x, y⟩ := p
    have hu := breakOnFirst_append tagT u x y hb
    have hmem : ('[' : Char) ∈ u := by
      rw [hu]
      have hT : ('[' : Char) ∈ tagT := by decide
      simp [List.mem_append, hT]
    have := h _ hmem
    exact absurd this (by decide)

/-! ## Identity-store lemmas -/

theorem dbLookup_insert (db : List (String × StoredUser)) (k : String) (v : StoredUser) :
    dbLookup (dbInsert db k v) k = some v := by
  induction db with
  | nil => simp [dbInsert, dbLookup]
  | cons hd tl ih =>
    obtain ⟨k2, v2⟩ := hd
    by_cases h : k2 = k <;> simp [dbInsert, dbLookup, h, ih]

/-! ## Claim theorems -/

/-- C1, counterexample: the claim as stated (response is everything after the
first occurrence of the marker, even when the marker repeats; transcription
strips only a leading transcription tag) fails on
`a[TRANSCRIPTION]b[RESPONSE]c[RESPONSE]d`: the marker occurs twice and the
code takes only the piece between the two occurrences, and strips the
non-leading transcription tag. -/
theorem c1_counterexample :
    includesSub tagR "a[TRANSCRIPTION]b[RESPONSE]c[RESPONSE]d".data = true ∧
    parseReplyChecked "a[TRANSCRIPTION]b[RESPONSE]c[RESPONSE]d".data ≠
      some (specParseClaimC1 "a[TRANSCRIPTION]b[RESPONSE]c[RESPONSE]d".data) :=
  ⟨by decide, by decide⟩

/-- C1 witness: the amended characterisation evaluated at a concrete reply
with a repeated marker. -/
theorem c1_split_on_first_amended_witness :
    includesSub tagR "[TRANSCRIPTION] ok [RESPONSE] fine [RESPONSE] extra".data = true ∧
    parseReplyChecked "[TRANSCRIPTION] ok [RESPONSE] fine [RESPONSE] extra".data =
      some (specParseAmendedC1 "[TRANSCRIPTION] ok [RESPONSE] fine [RESPONSE] extra".data) :=
  ⟨by decide, c1_split_on_first_amended _ (by decide)⟩

/-- C2: the specific input produces transcription `hello` and response
`hi there`. -/
theorem c2_roundtrip_example :
    parseReplyChecked "[TRANSCRIPTION] hello [RESPONSE] hi there".data =
      some ⟨"hello".data, "hi there".data⟩ := by
  decide

/-- C3: for every raw reply without the response marker, the whole string is
the response and the transcription is the fixed placeholder. -/
theorem c3_no_marker_fallback (s : List Char) (h : includesSub tagR s = false) :
    parseReplyChecked s = some ⟨fallbackTranscription, s⟩ := by
  simp [parseReplyChecked, h]

/-- C3 witness: the fallback branch evaluated on a marker-free reply. -/
theorem c3_no_marker_fallback_witness :
    includesSub tagR "just a reply, no markers".data = false ∧
    parseReplyChecked "just a reply, no markers".data =
      some ⟨fallbackTranscription, "just a reply, no markers".data⟩ :=
  ⟨by decide, c3_no_marker_fallback _ (by decide)⟩

/-- C4, counterexample: with an empty pre-marker segment and a repeated
marker, the displayed response is the piece between the two marker
occurrences, not the trimmed text after the first occurrence as the claim
states. -/
theorem c4_counterexample :
    breakOnFirst tagR " [RESPONSE] a [RESPONSE] b".data =
      some (" ".data, " a [RESPONSE] b".data) ∧
    trimL " ".data = [] ∧
    responseOf " [RESPONSE] a [RESPONSE] b".data ≠ trimL " a [RESPONSE] b".data :=
  ⟨by decide, by decide, by decide⟩

/-- C4 (amended): when the marker is present and the segment before it trims
to the empty string, the displayed transcription is the fixed fallback
sentence, and the response is the trimmed text between the first marker
occurrence and the next one (everything after the first occurrence when it is
unique). -/
theorem c4_empty_transcription_amended (s a b : List Char)
    (h : breakOnFirst tagR s = some (a, b)) (hempty : trimL a = []) :
    displayedTranscription s = noTranscribeFallback ∧
    responseOf s = trimL (headPiece tagR b) := by
  have hp := parseReplyChecked_eq h
  have hws := whitespace_of_trimL_nil hempty
  have hnone : breakOnFirst tagT a = none := breakOnFirst_tagT_none_of_ws hws
  have hid : replaceFirstL tagT [] a = a := by simp [replaceFirstL, hnone]
  rw [hid, hempty] at hp
  constructor
  · simp [displayedTranscription, parsedReplyOf, hp]
  · simp [responseOf, parsedReplyOf, hp]

/-- C4 witness: the degenerate reply of the spec example. -/
theorem c4_empty_transcription_amended_witness :
    breakOnFirst tagR "[RESPONSE] only this".data = some ([], " only this".data) ∧
    trimL ([] : List Char) = [] ∧
    (displayedTranscription "[RESPONSE] only this".data = noTranscribeFallback ∧
      responseOf "[RESPONSE] only this".data = trimL (headPiece tagR " only this".data)) :=
  ⟨by decide, by decide,
    c4_empty_transcription_amended "[RESPONSE] only this".data [] " only this".data
      (by decide) (by decide)⟩

/-- C5: the reply parser is total; on every input string it produces a
`(transcription, response)` pair and never reaches the error (`none`) case. -/
theorem c5_parser_total (s : List Char) : (parseReplyChecked s).isSome = true := by
  cases hb : breakOnFirst tagR s with
  | some p =>
    obtain ⟨a, b⟩ := p
    rw [parseReplyChecked_eq hb]
    rfl
  | none =>
    have h : includesSub tagR s = false := by
      rw [← breakOnFirst_isSome, hb]
      rfl
    simp [parseReplyChecked, h]

/-- C6: for every level and target language (and any mode and scenario), the
configurator produces a non-empty instruction string containing the canned
level description and the tutoring-language label given by the
English-to-English, otherwise-Russian mapping. -/
theorem c6_configurator_contains (lv : EnglishLevel) (lang : LanguageGoal)
    (mode : PracticeMode) (scenario : String) :
    systemInstructions lv lang mode scenario ≠ "" ∧
    includesSub (levelDescription lv).data
      (systemInstructions lv lang mode scenario).data = true ∧
    includesSub (tutorLangOf lang).data
      (systemInstructions lv lang mode scenario).data = true := by
  have hdesc : includesSub (levelDescription lv).data
      (systemInstructions lv lang mode scenario).data = true := by
    simp only [systemInstructions, String.data_append, List.append_assoc]
    apply includes_append_left
    apply includes_append_left
    apply includes_append_left
    apply includes_append_left
    apply includes_append_left
    exact includes_append_right _ _ _ (includes_self _)
  have hlang : includesSub (tutorLangOf lang).data
      (systemInstructions lv lang mode scenario).data = true := by
    simp only [systemInstructions, String.data_append, List.append_assoc]
    apply includes_append_left
    exact includes_append_right _ _ _ (includes_self _)
  refine ⟨?_, hdesc, hlang⟩
  intro hempty
  rw [hempty] at hlang
  cases lang
  · exact absurd hlang (by decide)
  · exact absurd hlang (by decide)

/-- C7: a registration attempt for an existing username and a login attempt
with a wrong password both leave the users directory and the current-user
record untouched. -/
theorem c7_auth_failures_no_mutation (st : AuthState) (username pw : String)
    (lv : EnglishLevel) (tl : LanguageGoal) (u : StoredUser)
    (hfound : dbLookup st.usersDb username = some u)
    (hwrong : u.password ≠ pw) :
    ((handleAuth true username pw lv tl st).usersDb = st.usersDb ∧
      (handleAuth true username pw lv tl st).currentUser = st.currentUser) ∧
    ((handleAuth false username pw lv tl st).usersDb = st.usersDb ∧
      (handleAuth false username pw lv tl st).currentUser = st.currentUser) := by
  by_cases h1 : username = ""
  · simp [handleAuth, h1]
  · by_cases h2 : pw = ""
    · simp [handleAuth, h1, h2]
    · simp [handleAuth, h1, h2, hfound, hwrong]

/-- C7 witness: duplicate registration and wrong-password login against a
one-user store. -/
theorem c7_auth_failures_no_mutation_witness :
    dbLookup [("alice", (⟨"secret", .B1, .English⟩ : StoredUser))] "alice" =
      some ⟨"secret", .B1, .English⟩ ∧
    ("secret" : String) ≠ "wrong" ∧
    (((handleAuth true "alice" "wrong" .A1 .Russian
        ⟨[("alice", ⟨"secret", .B1, .English⟩)], none, ""⟩).usersDb =
          [("alice", ⟨"secret", .B1, .English⟩)] ∧
      (handleAuth true "alice" "wrong" .A1 .Russian
        ⟨[("alice", ⟨"secret", .B1, .English⟩)], none, ""⟩).currentUser = none) ∧
    ((handleAuth false "alice" "wrong" .A1 .Russian
        ⟨[("alice", ⟨"secret", .B1, .English⟩)], none, ""⟩).usersDb =
          [("alice", ⟨"secret", .B1, .English⟩)] ∧
      (handleAuth false "alice" "wrong" .A1 .Russian
        ⟨[("alice", ⟨"secret", .B1, .English⟩)], none, ""⟩).currentUser = none)) :=
  ⟨by decide, by decide,
    c7_auth_failures_no_mutation ⟨[("alice", ⟨"secret", .B1, .English⟩)], none, ""⟩
      "alice" "wrong" .A1 .Russian ⟨"secret", .B1, .English⟩ (by decide) (by decide)⟩

/-- C8: when the remote call of a text send rejects, exactly one new
tutor-role message (the fixed error notice) is appended alongside the user
message, and the processing flag is cleared. -/
theorem c8_send_failure_single_error_message (st : ChatState) (e : String)
    (hne : trimS st.inputText ≠ "") (hproc : st.isProcessing = false) :
    (handleSendText st (.error e)).messages =
      st.messages ++ [(Role.USER, st.inputText), (Role.TUTOR, connectErrText)] ∧
    tutorMessages (handleSendText st (.error e)).messages =
      tutorMessages st.messages ++ [(Role.TUTOR, connectErrText)] ∧
    (handleSendText st (.error e)).isProcessing = false := by
  simp [handleSendText, hne, hproc, tutorMessages, List.filter_append]

/-- C8 witness: a rejected send from a quiescent chat state. -/
theorem c8_send_failure_single_error_message_witness :
    trimS ("hello" : String) ≠ "" ∧
    ((handleSendText ⟨[], "hello", false, ""⟩ (.error "boom")).messages =
      [] ++ [(Role.USER, "hello"), (Role.TUTOR, connectErrText)] ∧
    tutorMessages (handleSendText ⟨[], "hello", false, ""⟩ (.error "boom")).messages =
      tutorMessages [] ++ [(Role.TUTOR, connectErrText)] ∧
    (handleSendText ⟨[], "hello", false, ""⟩ (.error "boom")).isProcessing = false) :=
  ⟨by decide,
    c8_send_failure_single_error_message ⟨[], "hello", false, ""⟩ "boom" (by decide) rfl⟩

/-- C9: a recorded clip below the 50-byte threshold is never submitted to the
exchange (`processAudio` is not invoked) and no messages are appended. -/
theorem c9_small_clip_discarded (blobSize : Nat) (outcome : Except String String)
    (st : ChatState) (h : blobSize < 50) :
    (voiceStop blobSize outcome st).2 = false ∧
    (voiceStop blobSize outcome st).1.messages = st.messages := by
  simp [voiceStop, h]

/-- C9 witness: a 10-byte clip is discarded. -/
theorem c9_small_clip_discarded_witness :
    10 < 50 ∧
    ((voiceStop 10 (.ok "x") ⟨[], "", false, ""⟩).2 = false ∧
      (voiceStop 10 (.ok "x") ⟨[], "", false, ""⟩).1.messages = []) :=
  ⟨by decide, c9_small_clip_discarded 10 (.ok "x") ⟨[], "", false, ""⟩ (by decide)⟩

/-- C10: registering a fresh username and then logging in with the same
credentials succeeds and restores the registered level and target language
as the current user. -/
theorem c10_register_login_roundtrip (st : AuthState) (username pw : String)
    (lv lv2 : EnglishLevel) (tl tl2 : LanguageGoal)
    (hu : username ≠ "") (hp : pw ≠ "")
    (hnew : dbLookup st.usersDb username = none) :
    (handleAuth true username pw lv tl st).currentUser = some ⟨username, lv, tl⟩ ∧
    (handleAuth false username pw lv2 tl2
        (handleAuth true username pw lv tl st)).currentUser = some ⟨username, lv, tl⟩ ∧
    (handleAuth false username pw lv2 tl2
        (handleAuth true username pw lv tl st)).authError = "" := by
  refine ⟨?_, ?_, ?_⟩ <;> simp [handleAuth, hu, hp, hnew, dbLookup_insert]

/-- C10 witness: round-trip from an empty store. -/
theorem c10_register_login_roundtrip_witness :
    ("alice" : String) ≠ "" ∧ ("pw" : String) ≠ "" ∧
    dbLookup ([] : List (String × StoredUser)) "alice" = none ∧
    ((handleAuth true "alice" "pw" .A2 .Russian ⟨[], none, ""⟩).currentUser =
        some ⟨"alice", .A2, .Russian⟩ ∧
      (handleAuth false "alice" "pw" .C1 .English
          (handleAuth true "alice" "pw" .A2 .Russian ⟨[], none, ""⟩)).currentUser =
        some ⟨"alice", .A2, .Russian⟩ ∧
      (handleAuth false "alice" "pw" .C1 .English
          (handleAuth true "alice" "pw" .A2 .Russian ⟨[], none, ""⟩)).authError = "") :=
  ⟨by decide, by decide, by decide,
    c10_register_login_roundtrip ⟨[], none, ""⟩ "alice" "pw" .A2 .C1 .Russian .English
      (by decide) (by decide) (by decide)⟩

end AiKall
